import Mathlib

/-
Verification development for the result-view layer (realm table_view.hpp).

The repository contains only the header `src/Pods/Realm/include/realm/table_view.hpp`.
Functions whose bodies are inline in that header are translated directly from it
(line references in the doc comments).  Functions that are only declared there
(their bodies live in table_view.cpp, which is not part of the repository) are
modelled from the specification; each such definition carries a doc comment
starting with "Modelled from the spec:".
-/

set_option maxHeartbeats 1000000

namespace RealmTV

/-- A slot of the row-index mapping `m_row_indexes`: either a reference to a
source-table row, or the detached sentinel (`detached_ref` in the source).
The source stores raw integers with a reserved sentinel value; the spec's
tagged representation is used here. -/
inductive RowRef where
  | attached (idx : Nat)
  | detached
deriving DecidableEq, Repr

/-- Column types, from the DataType values used by the assertion macros in
table_view.hpp (type_Int, type_Bool, type_DateTime, ...). -/
inductive DataType where
  | type_Int
  | type_Bool
  | type_DateTime
  | type_Float
  | type_Double
  | type_String
deriving DecidableEq, Repr

/-- realm DateTime: wraps an integer time value; `get_datetime` returns it. -/
structure DateTime where
  dt : Int
deriving DecidableEq, Repr

def DateTime.get_datetime (d : DateTime) : Int := d.dt

/-- External Table collaborator (spec section 6): a version counter, a row
count, integer-valued columns (`cols[c][r]` is the value of column `c` at
source row `r`), and the column types. -/
structure Table where
  version : Nat
  nrows : Nat
  cols : List (List Int)
  colTypes : List DataType
deriving DecidableEq, Repr

/-- Value of column `c` at source row `r`. -/
def colVal (t : Table) (c r : Nat) : Int := (t.cols.getD c []).getD r 0

/-- Provenance of a view (spec section 3).  This is the tagged form of the
source fields `m_query`/`m_start`/`m_end`/`m_limit` (query with a non-null
table), `m_linkview_source`, and `m_distinct_column_source`; a query with a
null table reference means the view follows the table directly. -/
inductive Provenance where
  | tableOnly
  | queryRange (pred : Int → Bool) (qcol m_start m_end m_limit : Nat)
  | fromLinkView (lv : Nat)
  | distinctColumn (c : Nat)

/-- The view state: the fields of TableViewBase (table_view.hpp:309-333).
`rows` is `m_row_indexes` (inherited from RowIndexes); `m_table` is the
non-owning table reference (`none` = null TableRef); the provenance fields
are collected in `prov`. -/
structure View where
  rows : List RowRef
  m_table : Option Nat
  m_last_seen_version : Nat
  m_auto_sort : Bool
  m_sorting_predicate : List (Nat × Bool)
  prov : Provenance
  m_num_detached_refs : Nat

/-- table_view.hpp:654-657 - `return m_row_indexes.is_empty();` -/
def View.is_empty (v : View) : Bool := v.rows.isEmpty

/-- table_view.hpp:659-662 - `return bool(m_table);` -/
def View.is_attached (v : View) : Bool := v.m_table.isSome

/-- table_view.hpp:669-672 - `return m_row_indexes.size();` -/
def View.size (v : View) : Nat := v.rows.length

/-- table_view.hpp:674-677 - `return m_row_indexes.size() - m_num_detached_refs;` -/
def View.num_attached_rows (v : View) : Nat := v.rows.length - v.m_num_detached_refs

/-- table_view.hpp:405-408 - `detach()` sets `m_table = TableRef();` (null). -/
def View.detach (v : View) : View := { v with m_table := none }

/-- table_view.hpp:784-791 - the destructor unregisters the view from the
table and sets `m_table = TableRef();`.  The table-side registry is not
modelled; the effect on the view state is clearing the table reference. -/
def View.destructorDetach (v : View) : View := { v with m_table := none }

/-- table_view.hpp:700-715 - `TableViewBase(Table* parent)`: empty row
sequence, `m_table` set to the parent, `m_last_seen_version` set to the
parent's version, no distinct source, `m_auto_sort = false`. -/
def View.construct (tid tversion : Nat) : View :=
  { rows := []
    m_table := some tid
    m_last_seen_version := tversion
    m_auto_sort := false
    m_sorting_predicate := []
    prov := Provenance.tableOnly
    m_num_detached_refs := 0 }

/-- IntegerColumn::find_first, the external collaborator used by
find_by_source_ndx (table_view.hpp:687): linear scan returning the first
position whose slot content equals the given value, `not_found` (here:
`none`) otherwise.  A detached slot holds the sentinel and never equals a
valid source row index. -/
def find_first_slot (source_ndx : Nat) : List RowRef → Option Nat
  | [] => none
  | r :: rest =>
    if r = RowRef.attached source_ndx then some 0
    else (find_first_slot source_ndx rest).map (· + 1)

/-- table_view.hpp:684-688 - asserts `source_ndx < m_table->size()` and
returns `m_row_indexes.find_first(source_ndx);`. -/
def View.find_by_source_ndx (v : View) (source_ndx : Nat) : Option Nat :=
  find_first_slot source_ndx v.rows

/-- Modelled from the spec: adj_row_acc_insert_rows is only declared at
table_view.hpp:397; its body is not in the repository.  Spec 4.2, Insert
(at, count): any slot with idx >= at becomes idx + count; slots with
idx < at unchanged; Detached slots unchanged. -/
def adjSlotInsert (row_ndx num_rows : Nat) : RowRef → RowRef
  | RowRef.attached idx =>
    if row_ndx ≤ idx then RowRef.attached (idx + num_rows) else RowRef.attached idx
  | RowRef.detached => RowRef.detached

/-- Modelled from the spec: the ChangeAdjuster insert pass applies the slot
adjustment to every slot; no slot is added or removed and the detached
count is unchanged. -/
def adj_row_acc_insert_rows (row_ndx num_rows : Nat) (v : View) : View :=
  { v with rows := v.rows.map (adjSlotInsert row_ndx num_rows) }

/-- Modelled from the spec: adj_row_acc_erase_row is only declared at
table_view.hpp:398.  Spec 4.2, Erase (at): slots with idx == at become
Detached (never removed); slots with idx > at become idx - 1. -/
def adjSlotErase (row_ndx : Nat) : RowRef → RowRef
  | RowRef.attached idx =>
    if idx = row_ndx then RowRef.detached
    else if row_ndx < idx then RowRef.attached (idx - 1)
    else RowRef.attached idx
  | RowRef.detached => RowRef.detached

/-- Modelled from the spec: the erase pass additionally increments the
incrementally-maintained detached count by one per newly detached slot. -/
def adj_row_acc_erase_row (row_ndx : Nat) (v : View) : View :=
  { v with
    rows := v.rows.map (adjSlotErase row_ndx)
    m_num_detached_refs :=
      v.m_num_detached_refs + v.rows.countP (fun r => decide (r = RowRef.attached row_ndx)) }

/-- Modelled from the spec: adj_row_acc_move_over is only declared at
table_view.hpp:399.  Spec 4.2, Move-over (from, to): a slot equal to `from`
becomes `to`; a slot equal to `to` (the row being overwritten) becomes
Detached. -/
def adjSlotMoveOver (from_ndx to_ndx : Nat) : RowRef → RowRef
  | RowRef.attached idx =>
    if idx = from_ndx then RowRef.attached to_ndx
    else if idx = to_ndx then RowRef.detached
    else RowRef.attached idx
  | RowRef.detached => RowRef.detached

/-- Modelled from the spec: the move-over pass, with the detached count
incremented by one per newly detached slot. -/
def adj_row_acc_move_over (from_ndx to_ndx : Nat) (v : View) : View :=
  { v with
    rows := v.rows.map (adjSlotMoveOver from_ndx to_ndx)
    m_num_detached_refs :=
      v.m_num_detached_refs +
        (if from_ndx = to_ndx then 0
         else v.rows.countP (fun r => decide (r = RowRef.attached to_ndx))) }

/-- Number of Detached slots actually present in a row sequence. -/
def countDetached (rows : List RowRef) : Nat :=
  rows.countP (fun r => decide (r = RowRef.detached))

/-- Lexicographic comparison of sort keys. -/
def leKeys : List Int → List Int → Bool
  | [], _ => true
  | _ :: _, [] => false
  | a :: as, b :: bs => if a < b then true else if b < a then false else leKeys as bs

/-- Sort key of an attached row under a sort specification: per (column,
ascending) criterion the column value, negated for descending order. -/
def sortKeyOf (t : Table) (sp : List (Nat × Bool)) (idx : Nat) : List Int :=
  sp.map (fun p => if p.2 then colVal t p.1 idx else -(colVal t p.1 idx))

/-- Slot comparison for sorting: attached rows by lexicographic key,
detached slots ordered after all attached slots. -/
def rowLe (t : Table) (sp : List (Nat × Bool)) (a b : RowRef) : Bool :=
  match a, b with
  | RowRef.detached, RowRef.detached => true
  | RowRef.detached, RowRef.attached _ => false
  | RowRef.attached _, RowRef.detached => true
  | RowRef.attached i, RowRef.attached j => leKeys (sortKeyOf t sp i) (sortKeyOf t sp j)

/-- Stable insertion into a sorted list: the new element goes after every
element that compares less-or-equal to it. -/
def insertSorted (le : RowRef → RowRef → Bool) (x : RowRef) : List RowRef → List RowRef
  | [] => [x]
  | y :: ys => if le y x then y :: insertSorted le x ys else x :: y :: ys

/-- Modelled from the spec: stable sort (spec 4.3, re_sort / sort: ties
preserve prior relative order).  The sorting facility (RowIndexes::sort,
views.hpp) is not part of the repository. -/
def stableSort (le : RowRef → RowRef → Bool) (l : List RowRef) : List RowRef :=
  l.foldr (insertSorted le) []

/-- Modelled from the spec: apply the stored sort specification to a row
sequence. -/
def applySort (t : Table) (sp : List (Nat × Bool)) (rows : List RowRef) : List RowRef :=
  stableSort (rowLe t sp) rows

/-- Modelled from the spec: re-evaluating a query over [m_start, m_end)
honoring m_limit produces the matching source rows in ascending source-index
order (spec 4.3). -/
def runQuery (t : Table) (pred : Int → Bool) (qcol qstart qstop qlimit : Nat) : List RowRef :=
  ((((List.range t.nrows).filter
      (fun r => decide (qstart ≤ r) && decide (r < qstop) && pred (colVal t qcol r))).take
        qlimit).map RowRef.attached)

/-- One representative source row per distinct value, in first-occurrence
order (spec 4.3, distinct-column provenance). -/
def distinctAux (seen : List Int) (i : Nat) : List Int → List Nat
  | [] => []
  | x :: rest =>
    if seen.contains x then distinctAux seen (i + 1) rest
    else i :: distinctAux (x :: seen) (i + 1) rest

def distinctScan (vals : List Int) : List Nat := distinctAux [] 0 vals

/-- Modelled from the spec: do_sync is only declared at table_view.hpp:310;
its body is not in the repository.  Spec 4.3: re-evaluate the provenance
(query / link view / distinct column), replacing the row sequence wholesale
with the detached count reset to 0, reapply the sort specification when
auto-sort is set, and update m_last_seen_version; with no provenance
(query with null table) only the version bookkeeping advances.  The link
collections of the environment are given as `links` (link view id to list
of target rows). -/
def doSync (t : Table) (links : List (List Nat)) (v : View) : View :=
  match v.prov with
  | Provenance.tableOnly =>
    { v with m_last_seen_version := t.version }
  | Provenance.queryRange pred qcol qstart qstop qlimit =>
    let r := runQuery t pred qcol qstart qstop qlimit
    { v with
      rows := if v.m_auto_sort then applySort t v.m_sorting_predicate r else r
      m_num_detached_refs := 0
      m_last_seen_version := t.version }
  | Provenance.fromLinkView lv =>
    let r := (links.getD lv []).map RowRef.attached
    { v with
      rows := if v.m_auto_sort then applySort t v.m_sorting_predicate r else r
      m_num_detached_refs := 0
      m_last_seen_version := t.version }
  | Provenance.distinctColumn c =>
    let r := (distinctScan (t.cols.getD c [])).map RowRef.attached
    { v with
      rows := if v.m_auto_sort then applySort t v.m_sorting_predicate r else r
      m_num_detached_refs := 0
      m_last_seen_version := t.version }

/-- Spec 4.3 / table_view.hpp:276: the view is in sync iff its last seen
version equals the current outside version; in this single-table model the
outside version is the table's version. -/
def View.is_in_sync (t : Table) (v : View) : Bool :=
  decide (v.m_last_seen_version = t.version)

/-- Modelled from the spec: sync_if_needed is only declared at
table_view.hpp:286.  Spec 4.3: no-op if Fresh, returning the current
version; if Stale, do_sync regenerates and the new version is returned. -/
def View.sync_if_needed (v : View) (t : Table) (links : List (List Nat)) : View × Nat :=
  if v.is_in_sync t then (v, v.m_last_seen_version)
  else
    let v2 := doSync t links v
    (v2, v2.m_last_seen_version)

/-- Modelled from the spec: TableView::remove is only declared at
table_view.hpp:466.  Spec 3 (invariants) / 4.1: explicit remove is the only
slot-removing operation; it removes the slot at the given view position and
keeps the detached count in step (the cascading table-side row erase is the
table collaborator's side and not modelled). -/
def View.removeRow (v : View) (i : Nat) : View :=
  { v with
    rows := v.rows.eraseIdx i
    m_num_detached_refs :=
      match v.rows[i]? with
      | some RowRef.detached => v.m_num_detached_refs - 1
      | _ => v.m_num_detached_refs }

/-- table_view.hpp:1092-1096 - `if (!is_empty()) remove(size()-1);` -/
def View.remove_last (v : View) : View :=
  if v.is_empty then v else v.removeRow (v.size - 1)

/-- Modelled from the spec: TableView::clear is only declared at
table_view.hpp:465.  Spec 3: explicit clear empties the view. -/
def View.clearView (v : View) : View :=
  { v with rows := [], m_num_detached_refs := 0 }

/-- Modelled from the spec: sort(column(s)) replaces the sort specification,
sets auto-sort, and sorts immediately (spec 4.3; declared at
table_view.hpp:299-302). -/
def View.sortBy (v : View) (t : Table) (sp : List (Nat × Bool)) : View :=
  { v with
    m_sorting_predicate := sp
    m_auto_sort := true
    rows := applySort t sp v.rows }

/-- The operations of the view lifecycle that touch the row sequence or the
detached count: the three ChangeAdjuster passes, synchronization, explicit
remove/clear, and sorting. -/
inductive ViewOp where
  | insertRows (row_ndx num_rows : Nat)
  | eraseRow (row_ndx : Nat)
  | moveOver (from_ndx to_ndx : Nat)
  | syncOp (t : Table) (links : List (List Nat))
  | removeOp (i : Nat)
  | clearOp
  | sortOp (t : Table) (sp : List (Nat × Bool))

def applyOp : ViewOp → View → View
  | ViewOp.insertRows p k, v => adj_row_acc_insert_rows p k v
  | ViewOp.eraseRow p, v => adj_row_acc_erase_row p v
  | ViewOp.moveOver f tw, v => adj_row_acc_move_over f tw v
  | ViewOp.syncOp t links, v => (v.sync_if_needed t links).1
  | ViewOp.removeOp i, v => v.removeRow i
  | ViewOp.clearOp, v => v.clearView
  | ViewOp.sortOp t sp, v => v.sortBy t sp

/-- The maintained-count invariant (spec 3): `m_num_detached_refs` equals the
number of Detached slots. -/
def DetachedInv (v : View) : Prop := v.m_num_detached_refs = countDetached v.rows

/-- Lifecycle events for the attachment state machine: explicit detach,
the destructor's unregister step, or any of the ordinary operations. -/
inductive LifeEv where
  | detachEv
  | destructEv
  | opEv (op : ViewOp)

def isDetachingEv : LifeEv → Bool
  | LifeEv.detachEv => true
  | LifeEv.destructEv => true
  | LifeEv.opEv _ => false

def applyLife : LifeEv → View → View
  | LifeEv.detachEv, v => v.detach
  | LifeEv.destructEv, v => v.destructorDetach
  | LifeEv.opEv op, v => applyOp op v

/-- Modelled from the spec: the aggregate loop (declared at
table_view.hpp:224-226; body in table_view.cpp, not in the repository)
operates over the current row sequence as stored, excluding Detached slots
(spec 4.5).  The attached column values, in view order. -/
def attachedVals (t : Table) (c : Nat) (rows : List RowRef) : List Int :=
  rows.filterMap (fun r =>
    match r with
    | RowRef.attached idx => some (colVal t c idx)
    | RowRef.detached => none)

/-- Modelled from the spec: sum over attached rows, 64-bit signed accumulator
modelled as an unbounded integer (spec 4.5). -/
def View.sum_int (v : View) (t : Table) (c : Nat) : Int :=
  (attachedVals t c v.rows).foldl (· + ·) 0

/-- Modelled from the spec: count of attached rows whose column value equals
the target (spec 4.5). -/
def View.count_int (v : View) (t : Table) (c : Nat) (target : Int) : Nat :=
  (attachedVals t c v.rows).countP (fun x => decide (x = target))

/-- Modelled from the spec: average is sum divided by the attached-row
count; an attached count of zero yields 0 with no division (spec 4.5). -/
def View.average_int (v : View) (t : Table) (c : Nat) : Rat :=
  if v.num_attached_rows = 0 then 0
  else (v.sum_int t c : Rat) / (v.num_attached_rows : Rat)

/-- Modelled from the spec: linear extremum scan over view positions;
`better bx x` decides whether a new value `x` beats the current best `bx`,
so on ties the earliest view position is kept; the result carries the
extremum value together with the view position reported through the
optional out-parameter, and is `none` when no attached row exists (the
out-parameter stays unset). -/
def extremumScan (better : Int → Int → Bool) (t : Table) (c : Nat) :
    List RowRef → Nat → Option (Int × Nat) → Option (Int × Nat)
  | [], _, acc => acc
  | r :: rest, i, acc =>
    match r with
    | RowRef.detached => extremumScan better t c rest (i + 1) acc
    | RowRef.attached idx =>
      let x := colVal t c idx
      match acc with
      | none => extremumScan better t c rest (i + 1) (some (x, i))
      | some (bx, bi) =>
        if better bx x then extremumScan better t c rest (i + 1) (some (x, i))
        else extremumScan better t c rest (i + 1) (some (bx, bi))

/-- Modelled from the spec: maximum over attached rows; first occurrence
wins on ties (spec 4.5). -/
def View.maximum_int (v : View) (t : Table) (c : Nat) : Option (Int × Nat) :=
  extremumScan (fun bx x => decide (bx < x)) t c v.rows 0 none

/-- Modelled from the spec: minimum over attached rows; first occurrence
wins on ties (spec 4.5). -/
def View.minimum_int (v : View) (t : Table) (c : Nat) : Option (Int × Nat) :=
  extremumScan (fun bx x => decide (x < bx)) t c v.rows 0 none

/-- Modelled from the spec: find_first_integer is only declared at
table_view.hpp:390; it performs the search over the current row set,
returning the first view position whose attached row has the given column
value (spec 6: search delegates to the table scoped to the current row
set). -/
def find_first_val (t : Table) (c : Nat) (value : Int) : List RowRef → Option Nat
  | [] => none
  | r :: rest =>
    match r with
    | RowRef.attached idx =>
      if colVal t c idx = value then some 0
      else (find_first_val t c value rest).map (· + 1)
    | RowRef.detached => (find_first_val t c value rest).map (· + 1)

def View.find_first_integer (v : View) (t : Table) (column_ndx : Nat) (value : Int) : Option Nat :=
  find_first_val t column_ndx value v.rows

/-- table_view.hpp:1022-1026 - asserts the column type is type_Bool and
returns `find_first_integer(column_ndx, value ? 1 : 0);`. -/
def View.find_first_bool (v : View) (t : Table) (column_ndx : Nat) (value : Bool) : Option Nat :=
  v.find_first_integer t column_ndx (if value then 1 else 0)

/-- table_view.hpp:1028-1032 - asserts the column type is type_DateTime and
returns `find_first_integer(column_ndx, int64_t(value.get_datetime()));`. -/
def View.find_first_datetime (v : View) (t : Table) (column_ndx : Nat) (value : DateTime) :
    Option Nat :=
  v.find_first_integer t column_ndx value.get_datetime

/-- An execution context (Group): its tables, addressed by context-local
table identifiers. -/
structure Group where
  tables : List Table
deriving DecidableEq, Repr

def emptyTable : Table := { version := 0, nrows := 0, cols := [], colTypes := [] }

def tableOf (g : Group) (tid : Nat) : Table := g.tables.getD tid emptyTable

/-- The handover patch (TableView_Handover_patch): a single-use translation
record carrying the identity of the clone it was produced for and the
context-local table identifier to be re-resolved at the destination
(spec 3, 4.4). -/
structure Handover_patch where
  clone_id : Nat
  table_id : Nat
deriving DecidableEq, Repr

/-- A handover clone together with its identity, which the patch must
match. -/
structure CloneState where
  id : Nat
  view : View

/-- table_view.hpp:488-494 - TableView::clone_for_handover with
ConstSourcePayload (Copy) mode: allocates a fresh patch and builds the
clone via `TableViewBase(const TableViewBase&, Handover_patch&,
ConstSourcePayload)`.  Modelled from the spec for the constructor body
(not in the repository): Copy mode deep-copies the whole view state - row
sequence, provenance descriptor, sort specification, version stamp - and
leaves the const-qualified source untouched; the patch records the
source-context table identifier for re-resolution (spec 4.4). -/
def clone_for_handover (fresh_id : Nat) (v : View) : CloneState × Handover_patch :=
  ({ id := fresh_id, view := v },
   { clone_id := fresh_id, table_id := v.m_table.getD 0 })

/-- Modelled from the spec: apply_patch is only declared at
table_view.hpp:382; importing with a patch not produced for this clone is
a programmer error (fatal / assertion, spec 4.4); otherwise the clone's
table reference is re-resolved against the destination context. -/
def apply_patch (c : CloneState) (p : Handover_patch) (_g : Group) : Except String CloneState :=
  if p.clone_id = c.id then
    Except.ok { c with view := { c.view with m_table := some p.table_id } }
  else Except.error "patch was not produced for this clone"

/-- table_view.hpp:376-380 - `apply_and_consume_patch` applies the patch and
then resets the owning pointer (`patch.reset();`), so a successful import
leaves the patch null.  A second call then dereferences a consumed patch;
per spec 4.4 this is a programmer error (fatal in production, assertion in
debug), modelled as an error result rather than silent success. -/
def apply_and_consume_patch (c : CloneState) (patch : Option Handover_patch) (g : Group) :
    Except String (CloneState × Option Handover_patch) :=
  match patch with
  | none => Except.error "patch already consumed"
  | some p =>
    match apply_patch c p g with
    | Except.error e => Except.error e
    | Except.ok c2 => Except.ok (c2, none)

/-- get(i) observed through an integer column: the value, in the view's
context, of column `col` at the source row referenced by view position `i`
(table_view.hpp:1268-1290 resolve `m_row_indexes.get(row_ndx)` against
`m_table`); `none` for a detached view, an out-of-range position, or a
detached slot. -/
def View.get_int_in (v : View) (g : Group) (col i : Nat) : Option Int :=
  match v.m_table with
  | none => none
  | some tid =>
    match v.rows[i]? with
    | some (RowRef.attached idx) => some (colVal (tableOf g tid) col idx)
    | _ => none

def CloneState.get_int (c : CloneState) (g : Group) (col i : Nat) : Option Int :=
  c.view.get_int_in g col i

/-- Concrete table used by the witness theorems. -/
def tFix : Table :=
  { version := 0
    nrows := 4
    cols := [[1000, 2000, 1500, 7]]
    colTypes := [DataType.type_Int, DataType.type_Bool, DataType.type_DateTime] }

/-- Concrete view used by the witness theorems. -/
def vFix : View :=
  { rows := [RowRef.attached 0, RowRef.attached 3, RowRef.detached]
    m_table := some 0
    m_last_seen_version := 0
    m_auto_sort := false
    m_sorting_predicate := []
    prov := Provenance.tableOnly
    m_num_detached_refs := 1 }

/-- Concrete fully-detached view used by the witness theorems. -/
def dFix : View :=
  { rows := [RowRef.detached, RowRef.detached]
    m_table := some 0
    m_last_seen_version := 0
    m_auto_sort := false
    m_sorting_predicate := []
    prov := Provenance.tableOnly
    m_num_detached_refs := 2 }

def gFix : Group := { tables := [tFix] }

def cFix : CloneState := { id := 5, view := vFix }

def pFix : Handover_patch := { clone_id := 5, table_id := 0 }

/-
Theorems.  Helper lemmas come first, then one theorem per claim (with its
witness where the statement carries hypotheses).
-/

theorem doSync_m_last_seen_version (t : Table) (links : List (List Nat)) (v : View) :
    (doSync t links v).m_last_seen_version = t.version := by
  obtain ⟨rows, mt, lsv, asort, sp, prov, nd⟩ := v
  cases prov <;> rfl

theorem doSync_m_table (t : Table) (links : List (List Nat)) (v : View) :
    (doSync t links v).m_table = v.m_table := by
  obtain ⟨rows, mt, lsv, asort, sp, prov, nd⟩ := v
  cases prov <;> rfl

/-- C1: for every view and every table insert of `num_rows` rows at position
`row_ndx`, the insert-adjustment pass leaves the view's size unchanged
(adding no slot), maps every Attached(idx) slot with row_ndx <= idx to
Attached(idx + num_rows), and leaves slots with idx < row_ndx as well as
Detached slots unchanged. -/
theorem adj_row_acc_insert_rows_spec (row_ndx num_rows : Nat) (v : View) :
    (adj_row_acc_insert_rows row_ndx num_rows v).size = v.size ∧
    (∀ (i idx : Nat), v.rows[i]? = some (RowRef.attached idx) → row_ndx ≤ idx →
      (adj_row_acc_insert_rows row_ndx num_rows v).rows[i]? =
        some (RowRef.attached (idx + num_rows))) ∧
    (∀ (i idx : Nat), v.rows[i]? = some (RowRef.attached idx) → idx < row_ndx →
      (adj_row_acc_insert_rows row_ndx num_rows v).rows[i]? = some (RowRef.attached idx)) ∧
    (∀ (i : Nat), v.rows[i]? = some RowRef.detached →
      (adj_row_acc_insert_rows row_ndx num_rows v).rows[i]? = some RowRef.detached) := by
  refine ⟨by simp [adj_row_acc_insert_rows, View.size], ?_, ?_, ?_⟩
  · intro i idx h hle
    simp [adj_row_acc_insert_rows, List.getElem?_map, h, adjSlotInsert, hle]
  · intro i idx h hlt
    simp [adj_row_acc_insert_rows, List.getElem?_map, h, adjSlotInsert, Nat.not_le.mpr hlt]
  · intro i h
    simp [adj_row_acc_insert_rows, List.getElem?_map, h, adjSlotInsert]

theorem adj_row_acc_insert_rows_spec_witness :
    (adj_row_acc_insert_rows 1 2 vFix).size = vFix.size ∧
    (adj_row_acc_insert_rows 1 2 vFix).rows[1]? = some (RowRef.attached 5) ∧
    (adj_row_acc_insert_rows 1 2 vFix).rows[0]? = some (RowRef.attached 0) ∧
    (adj_row_acc_insert_rows 1 2 vFix).rows[2]? = some RowRef.detached :=
  ⟨(adj_row_acc_insert_rows_spec 1 2 vFix).1,
   (adj_row_acc_insert_rows_spec 1 2 vFix).2.1 1 3 rfl (by decide),
   (adj_row_acc_insert_rows_spec 1 2 vFix).2.2.1 0 0 rfl (by decide),
   (adj_row_acc_insert_rows_spec 1 2 vFix).2.2.2 2 rfl⟩

/-- C2: with no intervening table mutation, a second sync_if_needed call
returns the same version and the same view state as the first (so the row
sequence is identical after each call); on a Fresh view the call is a
no-op. -/
theorem sync_if_needed_idempotent (t : Table) (links : List (List Nat)) (v : View) :
    (View.sync_if_needed (v.sync_if_needed t links).1 t links = v.sync_if_needed t links) ∧
    (v.is_in_sync t = true → (v.sync_if_needed t links).1 = v) := by
  cases h : v.is_in_sync t with
  | true =>
    constructor
    · simp [View.sync_if_needed, h]
    · intro _; simp [View.sync_if_needed, h]
  | false =>
    have h2 : (doSync t links v).is_in_sync t = true := by
      simp [View.is_in_sync, doSync_m_last_seen_version]
    constructor
    · simp [View.sync_if_needed, h, h2, doSync_m_last_seen_version]
    · intro hc; simp [h] at hc

theorem sync_if_needed_idempotent_witness :
    vFix.is_in_sync tFix = true ∧ (vFix.sync_if_needed tFix []).1 = vFix :=
  ⟨rfl, (sync_if_needed_idempotent tFix [] vFix).2 rfl⟩

/-- C9: remove_last on an empty view is a no-op (and performs no
out-of-range access); on a non-empty view it equals remove(size() - 1). -/
theorem remove_last_spec (v : View) :
    (v.is_empty = true → v.remove_last = v) ∧
    (v.is_empty = false → v.remove_last = v.removeRow (v.size - 1)) := by
  constructor <;> intro h <;> simp [View.remove_last, h]

theorem remove_last_spec_witness :
    (vFix.is_empty = false ∧ vFix.remove_last = vFix.removeRow (vFix.size - 1)) ∧
    (View.construct 0 0).is_empty = true ∧
      (View.construct 0 0).remove_last = View.construct 0 0 :=
  ⟨⟨rfl, (remove_last_spec vFix).2 rfl⟩, rfl, (remove_last_spec (View.construct 0 0)).1 rfl⟩

/-- C10: under the column-type preconditions asserted at entry,
find_first_bool reduces to find_first_integer on 1/0 and
find_first_datetime reduces to find_first_integer on the datetime's
integer value. -/
theorem find_first_typed_delegates (v : View) (t : Table) (cb cd : Nat) (b : Bool)
    (d : DateTime)
    (_hcb : t.colTypes[cb]? = some DataType.type_Bool)
    (_hcd : t.colTypes[cd]? = some DataType.type_DateTime) :
    v.find_first_bool t cb b = v.find_first_integer t cb (if b then 1 else 0) ∧
    v.find_first_datetime t cd d = v.find_first_integer t cd d.get_datetime :=
  ⟨rfl, rfl⟩

theorem find_first_typed_delegates_witness :
    tFix.colTypes[1]? = some DataType.type_Bool ∧
    tFix.colTypes[2]? = some DataType.type_DateTime ∧
    vFix.find_first_bool tFix 1 true = vFix.find_first_integer tFix 1 1 ∧
    vFix.find_first_datetime tFix 2 { dt := 42 } = vFix.find_first_integer tFix 2 42 :=
  ⟨rfl, rfl,
   (find_first_typed_delegates vFix tFix 1 2 true { dt := 42 } rfl rfl).1,
   (find_first_typed_delegates vFix tFix 1 2 true { dt := 42 } rfl rfl).2⟩

theorem countP_insertSorted (p : RowRef → Bool) (le : RowRef → RowRef → Bool) (x : RowRef)
    (l : List RowRef) :
    (insertSorted le x l).countP p = l.countP p + (if p x then 1 else 0) := by
  induction l with
  | nil => simp [insertSorted, List.countP_cons]
  | cons y ys ih =>
    simp only [insertSorted]
    split
    · simp only [List.countP_cons, ih]; omega
    · simp only [List.countP_cons]

theorem countP_stableSort (p : RowRef → Bool) (le : RowRef → RowRef → Bool) (l : List RowRef) :
    (stableSort le l).countP p = l.countP p := by
  induction l with
  | nil => rfl
  | cons x xs ih =>
    show (insertSorted le x (stableSort le xs)).countP p = _
    rw [countP_insertSorted, ih, List.countP_cons]

theorem countDetached_applySort (t : Table) (sp : List (Nat × Bool)) (rows : List RowRef) :
    countDetached (applySort t sp rows) = countDetached rows :=
  countP_stableSort _ _ rows

theorem countDetached_cons (r : RowRef) (rows : List RowRef) :
    countDetached (r :: rows) = countDetached rows + (if r = RowRef.detached then 1 else 0) := by
  simp [countDetached, List.countP_cons]

theorem countAttEq_cons (n : Nat) (r : RowRef) (rows : List RowRef) :
    (r :: rows).countP (fun x => decide (x = RowRef.attached n)) =
      rows.countP (fun x => decide (x = RowRef.attached n)) +
        (if r = RowRef.attached n then 1 else 0) := by
  simp [List.countP_cons]

theorem countDetached_map_attached (l : List Nat) :
    countDetached (l.map RowRef.attached) = 0 := by
  induction l with
  | nil => rfl
  | cons x xs ih =>
    rw [List.map_cons, countDetached_cons, ih]
    simp

theorem countDetached_adjInsert (row_ndx num_rows : Nat) (rows : List RowRef) :
    countDetached (rows.map (adjSlotInsert row_ndx num_rows)) = countDetached rows := by
  induction rows with
  | nil => rfl
  | cons r rest ih =>
    rw [List.map_cons, countDetached_cons, countDetached_cons, ih]
    congr 1
    cases r with
    | attached idx =>
      by_cases h : row_ndx ≤ idx <;> simp [adjSlotInsert, h]
    | detached => simp [adjSlotInsert]

theorem countDetached_adjErase (row_ndx : Nat) (rows : List RowRef) :
    countDetached (rows.map (adjSlotErase row_ndx)) =
      countDetached rows + rows.countP (fun r => decide (r = RowRef.attached row_ndx)) := by
  induction rows with
  | nil => rfl
  | cons r rest ih =>
    rw [List.map_cons, countDetached_cons, countDetached_cons, countAttEq_cons, ih]
    have hhead : (if adjSlotErase row_ndx r = RowRef.detached then 1 else 0) =
        (if r = RowRef.detached then 1 else 0) +
          (if r = RowRef.attached row_ndx then 1 else (0 : Nat)) := by
      cases r with
      | detached => simp [adjSlotErase]
      | attached idx =>
        by_cases h : idx = row_ndx
        · simp [adjSlotErase, h]
        · by_cases h2 : row_ndx < idx <;> simp [adjSlotErase, h, h2]
    omega

theorem countDetached_adjMoveOver (from_ndx to_ndx : Nat) (rows : List RowRef) :
    countDetached (rows.map (adjSlotMoveOver from_ndx to_ndx)) =
      countDetached rows +
        (if from_ndx = to_ndx then 0
         else rows.countP (fun r => decide (r = RowRef.attached to_ndx))) := by
  by_cases hft : from_ndx = to_ndx
  · subst hft
    rw [if_pos rfl, Nat.add_zero]
    induction rows with
    | nil => rfl
    | cons r rest ih =>
      rw [List.map_cons, countDetached_cons, countDetached_cons, ih]
      congr 1
      cases r with
      | attached idx =>
        by_cases h : idx = from_ndx <;> simp [adjSlotMoveOver, h]
      | detached => simp [adjSlotMoveOver]
  · rw [if_neg hft]
    induction rows with
    | nil => rfl
    | cons r rest ih =>
      rw [List.map_cons, countDetached_cons, countDetached_cons, countAttEq_cons, ih]
      have hhead : (if adjSlotMoveOver from_ndx to_ndx r = RowRef.detached then 1 else 0) =
          (if r = RowRef.detached then 1 else 0) +
            (if r = RowRef.attached to_ndx then 1 else (0 : Nat)) := by
        cases r with
        | detached => simp [adjSlotMoveOver]
        | attached idx =>
          by_cases h1 : idx = from_ndx
          · have h2 : idx ≠ to_ndx := by intro hc; exact hft (h1 ▸ hc)
            simp [adjSlotMoveOver, h1, h2, hft]
          · by_cases h2 : idx = to_ndx <;> simp [adjSlotMoveOver, h1, h2, Ne.symm hft]
      omega

theorem countDetached_eraseIdx_add (rows : List RowRef) (i : Nat) :
    countDetached (rows.eraseIdx i) +
      (match rows[i]? with
       | some RowRef.detached => 1
       | _ => 0) = countDetached rows := by
  induction rows generalizing i with
  | nil => simp [countDetached]
  | cons r rest ih =>
    cases i with
    | zero =>
      cases r <;> simp [List.eraseIdx, countDetached_cons]
    | succ j =>
      have := ih j
      cases r <;>
        · rw [List.eraseIdx, countDetached_cons, countDetached_cons]
          simp only [List.getElem?_cons_succ]
          omega

theorem inv_adj_row_acc_insert_rows (row_ndx num_rows : Nat) (v : View)
    (h : DetachedInv v) : DetachedInv (adj_row_acc_insert_rows row_ndx num_rows v) := by
  unfold DetachedInv adj_row_acc_insert_rows at *
  rw [show ({ v with rows := v.rows.map (adjSlotInsert row_ndx num_rows) } : View).rows =
      v.rows.map (adjSlotInsert row_ndx num_rows) from rfl, countDetached_adjInsert]
  exact h

theorem inv_adj_row_acc_erase_row (row_ndx : Nat) (v : View)
    (h : DetachedInv v) : DetachedInv (adj_row_acc_erase_row row_ndx v) := by
  unfold DetachedInv adj_row_acc_erase_row at *
  show v.m_num_detached_refs + _ = countDetached (v.rows.map (adjSlotErase row_ndx))
  rw [countDetached_adjErase, h]

theorem inv_adj_row_acc_move_over (from_ndx to_ndx : Nat) (v : View)
    (h : DetachedInv v) : DetachedInv (adj_row_acc_move_over from_ndx to_ndx v) := by
  unfold DetachedInv adj_row_acc_move_over at *
  show v.m_num_detached_refs + _ = countDetached (v.rows.map (adjSlotMoveOver from_ndx to_ndx))
  rw [countDetached_adjMoveOver, h]

theorem inv_doSync (t : Table) (links : List (List Nat)) (v : View)
    (h : DetachedInv v) : DetachedInv (doSync t links v) := by
  unfold DetachedInv at *
  obtain ⟨rows, mt, lsv, asort, sp, prov, nd⟩ := v
  cases prov with
  | tableOnly => exact h
  | queryRange pred qcol qstart qstop qlimit =>
    have hq : countDetached (runQuery t pred qcol qstart qstop qlimit) = 0 :=
      countDetached_map_attached _
    cases asort with
    | false => exact hq.symm
    | true =>
      show (0 : Nat) = countDetached (applySort t sp (runQuery t pred qcol qstart qstop qlimit))
      rw [countDetached_applySort, hq]
  | fromLinkView lv =>
    have hq : countDetached ((links.getD lv []).map RowRef.attached) = 0 :=
      countDetached_map_attached _
    cases asort with
    | false => exact hq.symm
    | true =>
      show (0 : Nat) = countDetached (applySort t sp ((links.getD lv []).map RowRef.attached))
      rw [countDetached_applySort, hq]
  | distinctColumn c =>
    have hq : countDetached ((distinctScan (t.cols.getD c [])).map RowRef.attached) = 0 :=
      countDetached_map_attached _
    cases asort with
    | false => exact hq.symm
    | true =>
      show (0 : Nat) =
        countDetached (applySort t sp ((distinctScan (t.cols.getD c [])).map RowRef.attached))
      rw [countDetached_applySort, hq]

theorem inv_sync_if_needed (t : Table) (links : List (List Nat)) (v : View)
    (h : DetachedInv v) : DetachedInv (v.sync_if_needed t links).1 := by
  unfold View.sync_if_needed
  split
  · exact h
  · exact inv_doSync t links v h

theorem inv_removeRow (v : View) (i : Nat) (h : DetachedInv v) :
    DetachedInv (v.removeRow i) := by
  unfold DetachedInv View.removeRow at *
  have hadd := countDetached_eraseIdx_add v.rows i
  cases hv : v.rows[i]? with
  | none => simp only [hv] at hadd ⊢; omega
  | some r =>
    cases r <;> simp only [hv] at hadd ⊢ <;> omega

theorem inv_clearView (v : View) : DetachedInv (v.clearView) := by
  unfold DetachedInv View.clearView
  rfl

theorem inv_sortBy (v : View) (t : Table) (sp : List (Nat × Bool)) (h : DetachedInv v) :
    DetachedInv (v.sortBy t sp) := by
  unfold DetachedInv View.sortBy at *
  simpa [countDetached_applySort] using h

/-- C3: num_attached_rows() is size() minus the detached count, the
detached count never exceeds the length of the row sequence (so the size_t
subtraction cannot underflow), and the counting invariant
(m_num_detached_refs equals the number of Detached slots) is preserved by
every operation. -/
theorem num_attached_rows_invariant (v : View) (hinv : DetachedInv v) (op : ViewOp) :
    v.num_attached_rows = v.size - v.m_num_detached_refs ∧
    v.m_num_detached_refs ≤ v.size ∧
    DetachedInv (applyOp op v) := by
  refine ⟨rfl, ?_, ?_⟩
  · rw [hinv]
    exact List.countP_le_length _
  · cases op with
    | insertRows p k => exact inv_adj_row_acc_insert_rows p k v hinv
    | eraseRow p => exact inv_adj_row_acc_erase_row p v hinv
    | moveOver f tw => exact inv_adj_row_acc_move_over f tw v hinv
    | syncOp t links => exact inv_sync_if_needed t links v hinv
    | removeOp i => exact inv_removeRow v i hinv
    | clearOp => exact inv_clearView v
    | sortOp t sp => exact inv_sortBy v t sp hinv

theorem num_attached_rows_invariant_witness :
    vFix.num_attached_rows = vFix.size - vFix.m_num_detached_refs ∧
    vFix.m_num_detached_refs ≤ vFix.size ∧
    DetachedInv (applyOp (ViewOp.eraseRow 0) vFix) :=
  num_attached_rows_invariant vFix (by unfold DetachedInv; decide) (ViewOp.eraseRow 0)

theorem find_first_slot_char (s : Nat) (rows : List RowRef) :
    (∀ (i : Nat), find_first_slot s rows = some i →
        rows[i]? = some (RowRef.attached s) ∧
        ∀ (j : Nat), j < i → rows[j]? ≠ some (RowRef.attached s)) ∧
    (find_first_slot s rows = none →
        ∀ (j : Nat), rows[j]? ≠ some (RowRef.attached s)) := by
  induction rows with
  | nil =>
    constructor
    · intro i h; simp [find_first_slot] at h
    · intro _ j; simp
  | cons r rest ih =>
    constructor
    · intro i h
      by_cases hr : r = RowRef.attached s
      · simp only [find_first_slot, if_pos hr] at h
        obtain rfl : (0 : Nat) = i := Option.some.inj h
        refine ⟨by simp [hr], ?_⟩
        intro j hj
        exact absurd hj (Nat.not_lt_zero j)
      · simp only [find_first_slot, if_neg hr, Option.map_eq_some'] at h
        obtain ⟨i0, hi0, rfl⟩ := h
        obtain ⟨h1, h2⟩ := ih.1 i0 hi0
        refine ⟨by simpa using h1, ?_⟩
        intro j hj
        cases j with
        | zero => simp [hr]
        | succ j0 =>
          have hj0 : j0 < i0 := by omega
          simpa using h2 j0 hj0
    · intro h j
      by_cases hr : r = RowRef.attached s
      · simp [find_first_slot, if_pos hr] at h
      · simp only [find_first_slot, if_neg hr, Option.map_eq_none'] at h
        cases j with
        | zero => simp [hr]
        | succ j0 => simpa using ih.2 h j0

/-- C4: for an attached view and a source row index below the table size
(the asserted precondition), find_by_source_ndx performs a linear scan: it
returns the smallest view position whose slot content equals the source
index, and not_found (modelled as none) when no slot matches. -/
theorem find_by_source_ndx_spec (v : View) (t : Table) (source_ndx : Nat)
    (_hatt : v.is_attached = true) (_hpre : source_ndx < t.nrows) :
    (∀ (i : Nat), v.find_by_source_ndx source_ndx = some i →
        v.rows[i]? = some (RowRef.attached source_ndx) ∧
        ∀ (j : Nat), j < i → v.rows[j]? ≠ some (RowRef.attached source_ndx)) ∧
    (v.find_by_source_ndx source_ndx = none →
        ∀ (j : Nat), v.rows[j]? ≠ some (RowRef.attached source_ndx)) :=
  find_first_slot_char source_ndx v.rows

theorem find_by_source_ndx_spec_witness :
    vFix.is_attached = true ∧ (3 : Nat) < tFix.nrows ∧
    vFix.rows[1]? = some (RowRef.attached 3) ∧
    vFix.rows[0]? ≠ some (RowRef.attached 3) :=
  ⟨rfl, by decide,
   ((find_by_source_ndx_spec vFix tFix 3 rfl (by decide)).1 1 rfl).1,
   ((find_by_source_ndx_spec vFix tFix 3 rfl (by decide)).1 1 rfl).2 0 (by decide)⟩

theorem applyOp_m_table (op : ViewOp) (v : View) : (applyOp op v).m_table = v.m_table := by
  cases op with
  | insertRows p k => rfl
  | eraseRow p => rfl
  | moveOver f tw => rfl
  | syncOp t links =>
    show (View.sync_if_needed v t links).1.m_table = v.m_table
    unfold View.sync_if_needed
    split
    · rfl
    · exact doSync_m_table t links v
  | removeOp i => rfl
  | clearOp => rfl
  | sortOp t sp => rfl

theorem foldl_applyLife_m_table (evs : List LifeEv) (v : View) :
    (evs.foldl (fun s e => applyLife e s) v).m_table =
      if evs.any isDetachingEv then none else v.m_table := by
  induction evs generalizing v with
  | nil => simp
  | cons e rest ih =>
    cases e with
    | detachEv =>
      simp only [List.foldl_cons, List.any_cons, isDetachingEv, Bool.true_or, if_true]
      rw [ih]
      split <;> rfl
    | destructEv =>
      simp only [List.foldl_cons, List.any_cons, isDetachingEv, Bool.true_or, if_true]
      rw [ih]
      split <;> rfl
    | opEv op =>
      simp only [List.foldl_cons, List.any_cons, isDetachingEv, Bool.false_or]
      rw [ih]
      simp only [applyLife]
      rw [applyOp_m_table]

/-- C5: starting from a view constructed attached to a table, along any
sequence of lifecycle events, is_attached() is true exactly when the table
reference is non-null, and the table reference is null exactly when a
detach (explicit detach() or the destructor's unregister step) has
occurred; the ordinary operations never change the table reference. -/
theorem is_attached_iff_not_detached (tid tversion : Nat) (evs : List LifeEv) :
    ((evs.foldl (fun s e => applyLife e s) (View.construct tid tversion)).is_attached = true ↔
      (evs.foldl (fun s e => applyLife e s) (View.construct tid tversion)).m_table ≠ none) ∧
    ((evs.foldl (fun s e => applyLife e s) (View.construct tid tversion)).is_attached = false ↔
      evs.any isDetachingEv = true) := by
  have hm := foldl_applyLife_m_table evs (View.construct tid tversion)
  constructor
  · simp [View.is_attached, Option.isSome_iff_ne_none]
  · cases hAny : evs.any isDetachingEv with
    | true =>
      simp only [hAny, if_true] at hm
      simp [View.is_attached, hm]
    | false =>
      rw [hAny] at hm
      simp only [Bool.false_eq_true, if_false] at hm
      have hm2 : (evs.foldl (fun s e => applyLife e s) (View.construct tid tversion)).m_table =
          some tid := by rw [hm]; rfl
      simp [View.is_attached, hm2]

theorem attachedVals_all_detached (t : Table) (c : Nat) (rows : List RowRef)
    (h : ∀ r ∈ rows, r = RowRef.detached) : attachedVals t c rows = [] := by
  induction rows with
  | nil => rfl
  | cons r rest ih =>
    have hr := h r (List.mem_cons_self ..)
    subst hr
    exact ih (fun r hr => h r (List.mem_cons_of_mem _ hr))

theorem countDetached_eq_length (rows : List RowRef)
    (h : ∀ r ∈ rows, r = RowRef.detached) : countDetached rows = rows.length := by
  unfold countDetached
  exact List.countP_eq_length.mpr (fun a ha => by simp [h a ha])

theorem extremumScan_all_detached (better : Int → Int → Bool) (t : Table) (c : Nat)
    (rows : List RowRef) (h : ∀ r ∈ rows, r = RowRef.detached) :
    ∀ (i : Nat) (acc : Option (Int × Nat)), extremumScan better t c rows i acc = acc := by
  induction rows with
  | nil => intro i acc; rfl
  | cons r rest ih =>
    intro i acc
    have hr := h r (List.mem_cons_self ..)
    subst hr
    exact ih (fun r hr => h r (List.mem_cons_of_mem _ hr)) (i + 1) acc

/-- C6: on a view with no attached rows (empty, or all slots Detached, with
the maintained detached count in its invariant state), every reducer
returns its identity: sum 0, count 0, average 0 (taken in the zero-count
branch, with no division), and minimum/maximum produce no extremum, so the
optional extremum-index out-parameter stays unset (none). -/
theorem aggregates_identity_on_no_attached (v : View) (t : Table) (c : Nat) (target : Int)
    (hinv : DetachedInv v) (hall : ∀ r ∈ v.rows, r = RowRef.detached) :
    v.num_attached_rows = 0 ∧
    v.sum_int t c = 0 ∧
    v.count_int t c target = 0 ∧
    v.average_int t c = 0 ∧
    v.maximum_int t c = none ∧
    v.minimum_int t c = none := by
  have hvals : attachedVals t c v.rows = [] := attachedVals_all_detached t c v.rows hall
  have hnum : v.num_attached_rows = 0 := by
    unfold View.num_attached_rows
    unfold DetachedInv at hinv
    rw [hinv, countDetached_eq_length v.rows hall]
    exact Nat.sub_self _
  refine ⟨hnum, ?_, ?_, ?_, ?_, ?_⟩
  · unfold View.sum_int; rw [hvals]; rfl
  · unfold View.count_int; rw [hvals]; rfl
  · simp [View.average_int, hnum]
  · exact extremumScan_all_detached _ t c v.rows hall 0 none
  · exact extremumScan_all_detached _ t c v.rows hall 0 none

theorem aggregates_identity_on_no_attached_witness :
    dFix.num_attached_rows = 0 ∧
    dFix.sum_int tFix 0 = 0 ∧
    dFix.count_int tFix 0 1000 = 0 ∧
    dFix.average_int tFix 0 = 0 ∧
    dFix.maximum_int tFix 0 = none ∧
    dFix.minimum_int tFix 0 = none :=
  aggregates_identity_on_no_attached dFix tFix 0 1000 (by unfold DetachedInv; decide)
    (by decide)

theorem apply_and_consume_patch_some (c : CloneState) (p : Handover_patch) (g : Group) :
    apply_and_consume_patch c (some p) g =
      match apply_patch c p g with
      | Except.error e => Except.error e
      | Except.ok c2 => Except.ok (c2, none) := rfl

theorem apply_patch_eq_pos (c : CloneState) (p : Handover_patch) (g : Group)
    (h : p.clone_id = c.id) :
    apply_patch c p g =
      Except.ok { c with view := { c.view with m_table := some p.table_id } } := by
  unfold apply_patch
  rw [if_pos h]

theorem apply_patch_eq_neg (c : CloneState) (p : Handover_patch) (g : Group)
    (h : p.clone_id ≠ c.id) :
    apply_patch c p g = Except.error "patch was not produced for this clone" := by
  unfold apply_patch
  rw [if_neg h]

/-- C7: import consumes the patch exactly once: when the patch matches the
clone it was produced for, import succeeds and the patch slot is reset to
null; importing an already-consumed (null) patch is an error, and importing
a patch not produced for the given clone is an error - never a silent
success. -/
theorem apply_and_consume_patch_single_use (c : CloneState) (p : Handover_patch) (g : Group)
    (hid : p.clone_id = c.id) :
    (∃ c2, apply_and_consume_patch c (some p) g = Except.ok (c2, none)) ∧
    (∀ (c3 : CloneState) (g3 : Group),
      ∃ e, apply_and_consume_patch c3 none g3 = Except.error e) ∧
    (∀ (q : Handover_patch) (c4 : CloneState) (g4 : Group), q.clone_id ≠ c4.id →
      ∃ e, apply_and_consume_patch c4 (some q) g4 = Except.error e) := by
  refine ⟨⟨{ c with view := { c.view with m_table := some p.table_id } }, ?_⟩, ?_, ?_⟩
  · rw [apply_and_consume_patch_some, apply_patch_eq_pos c p g hid]
  · intro c3 g3
    exact ⟨_, rfl⟩
  · intro q c4 g4 hq
    rw [apply_and_consume_patch_some, apply_patch_eq_neg c4 q g4 hq]
    exact ⟨_, rfl⟩

theorem apply_and_consume_patch_single_use_witness :
    (∃ c2, apply_and_consume_patch cFix (some pFix) gFix = Except.ok (c2, none)) ∧
    (∀ (c3 : CloneState) (g3 : Group),
      ∃ e, apply_and_consume_patch c3 none g3 = Except.error e) ∧
    (∀ (q : Handover_patch) (c4 : CloneState) (g4 : Group), q.clone_id ≠ c4.id →
      ∃ e, apply_and_consume_patch c4 (some q) g4 = Except.error e) :=
  apply_and_consume_patch_single_use cFix pFix gFix rfl

/-- C8: exporting with Copy mode leaves the source view's whole state
unchanged (the clone carries exactly the source's row sequence, provenance,
sort specification and version stamp), and importing the produced patch
into a destination context holding an equivalent-version table yields a
clone whose get(i) agrees with the source view's get(i) at export time for
every position below size(). -/
theorem handover_copy_round_trip (fid : Nat) (v : View) (g1 g2 : Group) (tid : Nat)
    (hv : v.m_table = some tid)
    (heq : tableOf g2 tid = tableOf g1 tid) :
    (clone_for_handover fid v).1.view = v ∧
    ∃ c2, apply_and_consume_patch (clone_for_handover fid v).1
        (some (clone_for_handover fid v).2) g2 = Except.ok (c2, none) ∧
      ∀ (col i : Nat), i < v.size → c2.get_int g2 col i = v.get_int_in g1 col i := by
  refine ⟨rfl, ⟨{ id := fid, view := { v with m_table := some tid } }, ?_, ?_⟩⟩
  · show apply_and_consume_patch { id := fid, view := v }
        (some { clone_id := fid, table_id := v.m_table.getD 0 }) g2 = _
    rw [hv, apply_and_consume_patch_some, apply_patch_eq_pos _ _ _ rfl]
    rfl
  · intro col i hi
    cases hrows : v.rows[i]? with
    | none => simp [CloneState.get_int, View.get_int_in, hv, hrows]
    | some r =>
      cases r with
      | attached idx => simp [CloneState.get_int, View.get_int_in, hv, hrows, heq]
      | detached => simp [CloneState.get_int, View.get_int_in, hv, hrows]

theorem handover_copy_round_trip_witness :
    (clone_for_handover 7 vFix).1.view = vFix ∧
    ∃ c2, apply_and_consume_patch (clone_for_handover 7 vFix).1
        (some (clone_for_handover 7 vFix).2) gFix = Except.ok (c2, none) ∧
      ∀ (col i : Nat), i < vFix.size → c2.get_int gFix col i = vFix.get_int_in gFix col i :=
  handover_copy_round_trip 7 vFix gFix gFix 0 rfl rfl

end RealmTV
